import Mathlib

/-!
Verification of the numbat substitution engine and dimension registry

This file gives a shallow embedding of two Rust modules:

* `src/registry.rs` — the dimensional algebra registry
  (`BaseRepresentation`, `Registry`), and
* `src/numbat/src/typechecker/substitutions.rs` — the substitution engine
  (`Substitution`, `ApplySubstitution` for `Type`, `DType`, `StructInfo`,
  `Expression`, `Statement`).

Rust `i32` exponents are modelled as `Int`; strings as `String`
(Rust's byte-wise UTF-8 ordering on strings coincides with the
codepoint-lexicographic order used here). Rust's stable `Vec::sort` on
`(String, i32)` pairs (lexicographic tuple order) is modelled with
`List.mergeSort` on the corresponding boolean order, which is also stable.
In-place mutating `fn apply(&mut self, ...) -> Result<(), SubstitutionError>`
methods are modelled as functions returning
`Except SubstitutionError α` for the mutated value.
-/

namespace Numbat

/-! Embedding of registry.rs -/

abbrev BaseEntry := String
abbrev Exponent := Int

/-- Rust `enum RegistryError` from registry.rs. -/
inductive RegistryError where
  | entryExists (name : String)
  | unknownEntry (name : String)
deriving DecidableEq, Repr

/-- Rust `struct BaseRepresentation { components: Vec<(BaseEntry, Exponent)> }`. -/
structure BaseRepresentation where
  components : List (BaseEntry × Exponent)
deriving DecidableEq, Repr

namespace BaseRepresentation

/-- Rust `BaseRepresentation::from_components` (clones the given slice). -/
def from_components (components : List (BaseEntry × Exponent)) : BaseRepresentation :=
  ⟨components⟩

/-- Rust `BaseRepresentation::scalar`: the empty representation. -/
def scalar : BaseRepresentation := ⟨[]⟩

/-- Rust `BaseRepresentation::invert`: negate every exponent. -/
def invert (r : BaseRepresentation) : BaseRepresentation :=
  from_components (r.components.map (fun p => (p.1, -p.2)))

end BaseRepresentation

/-- Rust's `Ord` on `(String, i32)`: lexicographic on the pair.
Used by `result.components.sort()` in `merge_base_representations`. -/
def compLe (a b : BaseEntry × Exponent) : Bool :=
  decide (a.1 < b.1 ∨ (a.1 = b.1 ∧ a.2 ≤ b.2))

/-- One iteration of the `for (name_rhs, exponent_rhs) in &rhs.components`
loop body in `Registry::merge_base_representations`: find the first
component of `acc` with the same name and add the exponent to it;
otherwise push the component at the end. -/
def mergeOne : List (BaseEntry × Exponent) → BaseEntry × Exponent →
    List (BaseEntry × Exponent)
  | [], c => [c]
  | p :: ps, c =>
    if p.1 = c.1 then (p.1, p.2 + c.2) :: ps else p :: mergeOne ps c

/-- Rust `Registry::merge_base_representations` (it takes `&self` but never uses
the registry state): fold the rhs components into a clone of lhs, drop
zero exponents, sort. -/
def merge_base_representations (lhs rhs : BaseRepresentation) : BaseRepresentation :=
  let merged := rhs.components.foldl mergeOne lhs.components
  ⟨(merged.filter (fun p => p.2 ≠ 0)).mergeSort compLe⟩

/-- Rust `struct Registry<A>`; the metadata type `A::Metadata` is the parameter
`M`. The `HashMap<String, BaseRepresentation>` of derived entries is
modelled as an association list queried with `List.lookup` (the
`add_derived_entry` guard keeps its keys unique). -/
structure Registry (M : Type) where
  base_entries : List (String × M)
  derived_entries : List (String × BaseRepresentation)
deriving Repr

namespace Registry

/-- Rust `Registry::default()`. -/
def default (M : Type) : Registry M := ⟨[], []⟩

/-- Rust `Registry::is_base_entry`: membership test against base entries only. -/
def is_base_entry (reg : Registry M) (name : String) : Bool :=
  reg.base_entries.any (fun p => p.1 = name)

/-- Rust `Registry::add_base_entry`. -/
def add_base_entry (reg : Registry M) (name : String) (metadata : M) :
    Except RegistryError (Registry M) :=
  if reg.is_base_entry name then
    .error (.entryExists name)
  else
    .ok { reg with base_entries := reg.base_entries ++ [(name, metadata)] }

/-- Rust `Registry::get_base_representation_for_name`. -/
def get_base_representation_for_name (reg : Registry M) (name : String) :
    Except RegistryError BaseRepresentation :=
  if reg.is_base_entry name then
    .ok (BaseRepresentation.from_components [(name, 1)])
  else
    match reg.derived_entries.lookup name with
    | some rep => .ok rep
    | none => .error (.unknownEntry name)

/-- Rust `Registry::add_derived_entry`; the adapter's
`expression_to_base_representation` is the function argument `adapter`,
and the derived expression the opaque `expr : E`. -/
def add_derived_entry (reg : Registry M)
    (adapter : Registry M → E → Except RegistryError BaseRepresentation)
    (name : String) (expr : E) (_metadata : M) :
    Except RegistryError (Registry M) :=
  if (reg.derived_entries.lookup name).isSome then
    .error (.entryExists name)
  else do
    let rep ← adapter reg expr
    .ok { reg with derived_entries := (name, rep) :: reg.derived_entries }

end Registry

/-! Embedding of substitutions.rs: the data model.

`TypeVariable` is opaque, compared by equality only; modelled as `String`.
`Type`, `DType`, `StructInfo`, `Expression`, `Statement` live in
`typed_ast.rs`, which is not part of the given source; their variant and
slot structure is taken from the `ApplySubstitution` implementations in
`substitutions.rs` together with the spec's data model (§3). Slots that
`apply` never touches (spans, names, operators, numbers) are modelled as
opaque `Unit` fields. -/

abbrev TypeVariable := String

/-- Modelled from the spec: one multiplicative factor of a dimension type —
a base physical dimension or a type variable occurring inside the
dimension type (§3: "any type variable inside a dimension type"). -/
inductive DTypeFactor where
  | baseDimension (name : String)
  | tvar (v : TypeVariable)
deriving DecidableEq, Repr

/-- Modelled from the spec: `DType`, "the dimension-specific sub-type
(exponent vector over physical dimensions, conceptually mirroring
BaseRepresentation but at the type level)" (§3); factors may be type
variables. -/
structure DType where
  factors : List (DTypeFactor × Int)
deriving DecidableEq, Repr

mutual

/-- Rust `enum Type` from typed_ast.rs, with the variants matched by
`impl ApplySubstitution for Type`. -/
inductive Ty where
  | tvar (v : TypeVariable)
  | dimension (d : DType)
  | boolean
  | string
  | dateTime
  | fn (param_types : List Ty) (return_type : Ty)
  | struct (info : StructInfo)
  | list (element_type : Ty)

/-- Rust `struct StructInfo` from typed_ast.rs: an insertion-ordered mapping
from field name to (auxiliary field metadata, field type) (spec §3);
the auxiliary metadata is the `Unit` slot. -/
inductive StructInfo where
  | mk (name : Unit) (fields : List (String × Unit × Ty))

end

deriving instance Repr for Ty, StructInfo

/-- Rust `enum SubstitutionError`. -/
inductive SubstitutionError where
  | substitutedNonDTypeWithinDType (t : Ty)
deriving Repr

/-- Rust `struct Substitution(pub Vec<(TypeVariable, Type)>)`. -/
structure Substitution where
  pairs : List (TypeVariable × Ty)
deriving Repr

namespace Substitution

/-- Rust `Substitution::empty`. -/
def empty : Substitution := ⟨[]⟩

/-- Rust `Substitution::single`. -/
def single (v : TypeVariable) (t : Ty) : Substitution := ⟨[(v, t)]⟩

/-- Rust `Substitution::lookup`: the first binding for `v`, if any. -/
def lookup (s : Substitution) (v : TypeVariable) : Option Ty :=
  (s.pairs.find? (fun p => p.1 = v)).map (fun p => p.2)

end Substitution

/-! Embedding of substitutions.rs: ApplySubstitution.

Each Rust `fn apply(&mut self, s: &Substitution) -> Result<(), SubstitutionError>`
becomes a function `α → Except SubstitutionError α` returning the mutated
value. -/

/-- Rust `impl ApplySubstitution for DType`: the body is `// TODO` and returns
`Ok(())`, leaving the dimension type unchanged. -/
def DType.apply (_s : Substitution) (d : DType) : Except SubstitutionError DType :=
  .ok d

mutual

/-- Rust `impl ApplySubstitution for Type`. -/
def Ty.apply (s : Substitution) : Ty → Except SubstitutionError Ty
  | .tvar v =>
    match s.lookup v with
    | some t => .ok t
    | none => .ok (.tvar v)
  | .dimension d => do
    let d' ← d.apply s
    .ok (.dimension d')
  | .boolean => .ok .boolean
  | .string => .ok .string
  | .dateTime => .ok .dateTime
  | .fn param_types return_type => do
    let ps ← Ty.applyList s param_types
    let r ← return_type.apply s
    .ok (.fn ps r)
  | .struct info => do
    let info' ← info.apply s
    .ok (.struct info')
  | .list element_type => do
    let e ← element_type.apply s
    .ok (.list e)

/-- The `for param_type in param_types { param_type.apply(s)?; }` loop in
the `Type::Fn` arm. -/
def Ty.applyList (s : Substitution) : List Ty → Except SubstitutionError (List Ty)
  | [] => .ok []
  | t :: ts => do
    let t' ← t.apply s
    let ts' ← Ty.applyList s ts
    .ok (t' :: ts')

/-- Rust `impl ApplySubstitution for StructInfo`: apply to every field type. -/
def StructInfo.apply (s : Substitution) : StructInfo → Except SubstitutionError StructInfo
  | .mk name fields => do
    let fs ← StructInfo.applyFields s fields
    .ok (.mk name fs)

/-- The `for (_, field_type) in self.fields.values_mut()` loop of
`StructInfo::apply`. -/
def StructInfo.applyFields (s : Substitution) :
    List (String × Unit × Ty) → Except SubstitutionError (List (String × Unit × Ty))
  | [] => .ok []
  | (n, m, t) :: fs => do
    let t' ← t.apply s
    let fs' ← StructInfo.applyFields s fs
    .ok ((n, m, t') :: fs')

end

/-- Rust `enum Expression` from typed_ast.rs, with the variants and slots
matched by `impl ApplySubstitution for Expression`; slots that `apply`
ignores (spans, names, operators, literal values) are `Unit`. -/
inductive Expression where
  | scalar (span : Unit) (n : Unit) (type_ : Ty)
  | identifier (span : Unit) (name : Unit) (type_ : Ty)
  | unitIdentifier (span p n f : Unit) (type_ : Ty)
  | unaryOperator (span op : Unit) (expr : Expression) (type_ : Ty)
  | binaryOperator (op span : Unit) (lhs rhs : Expression) (type_ : Ty)
  | binaryOperatorForDate (op span : Unit) (lhs rhs : Expression) (type_ : Ty)
  | functionCall (span fullSpan name : Unit) (arguments : List Expression) (return_type : Ty)
  | callableCall (span : Unit) (callable : Expression) (arguments : List Expression)
      (return_type : Ty)
  | boolean (span : Unit) (val : Unit)
  | condition (span : Unit) (if_ then_ else_ : Expression)
  | string (span : Unit) (parts : Unit)
  | instantiateStruct (span : Unit) (initializers : List (Unit × Expression))
      (info : StructInfo)
  | accessField (span1 span2 : Unit) (instance_ : Expression) (attr : Unit)
      (info : StructInfo) (type_ : Ty)
  | list (span : Unit) (elements : List Expression) (element_type : Ty)
deriving Repr

mutual

/-- Rust `impl ApplySubstitution for Expression`: recurse into every owned
sub-expression, then the node's own type annotation. -/
def Expression.apply (s : Substitution) : Expression → Except SubstitutionError Expression
  | .scalar sp n type_ => do
    .ok (.scalar sp n (← type_.apply s))
  | .identifier sp name type_ => do
    .ok (.identifier sp name (← type_.apply s))
  | .unitIdentifier sp p n f type_ => do
    .ok (.unitIdentifier sp p n f (← type_.apply s))
  | .unaryOperator sp op expr type_ => do
    let e ← expr.apply s
    .ok (.unaryOperator sp op e (← type_.apply s))
  | .binaryOperator op sp lhs rhs type_ => do
    let l ← lhs.apply s
    let r ← rhs.apply s
    .ok (.binaryOperator op sp l r (← type_.apply s))
  | .binaryOperatorForDate op sp lhs rhs type_ => do
    let l ← lhs.apply s
    let r ← rhs.apply s
    .ok (.binaryOperatorForDate op sp l r (← type_.apply s))
  | .functionCall sp fsp name arguments return_type => do
    let args ← Expression.applyArgs s arguments
    .ok (.functionCall sp fsp name args (← return_type.apply s))
  | .callableCall sp callable arguments return_type => do
    let c ← callable.apply s
    let args ← Expression.applyArgs s arguments
    .ok (.callableCall sp c args (← return_type.apply s))
  | .boolean sp val => .ok (.boolean sp val)
  | .condition sp if_ then_ else_ => do
    let i ← if_.apply s
    let t ← then_.apply s
    let e ← else_.apply s
    .ok (.condition sp i t e)
  | .string sp parts => .ok (.string sp parts)
  | .instantiateStruct sp initializers info => do
    let is_ ← Expression.applyInits s initializers
    .ok (.instantiateStruct sp is_ (← info.apply s))
  | .accessField sp1 sp2 instance_ attr info type_ => do
    let i ← instance_.apply s
    let info' ← info.apply s
    .ok (.accessField sp1 sp2 i attr info' (← type_.apply s))
  | .list sp elements element_type => do
    let es ← Expression.applyArgs s elements
    .ok (.list sp es (← element_type.apply s))

/-- The `for arg in arguments { arg.apply(s)?; }` loops. -/
def Expression.applyArgs (s : Substitution) :
    List Expression → Except SubstitutionError (List Expression)
  | [] => .ok []
  | e :: es => do
    let e' ← e.apply s
    let es' ← Expression.applyArgs s es
    .ok (e' :: es')

/-- The `for (_, expr) in initializers` loop of `InstantiateStruct`. -/
def Expression.applyInits (s : Substitution) :
    List (Unit × Expression) → Except SubstitutionError (List (Unit × Expression))
  | [] => .ok []
  | (n, e) :: es => do
    let e' ← e.apply s
    let es' ← Expression.applyInits s es
    .ok ((n, e') :: es')

end

/-- Rust `enum Statement`, with the variants and slots matched by
`impl ApplySubstitution for Statement`. -/
inductive Statement where
  | expression (e : Expression)
  | defineVariable (name mdata : Unit) (e : Expression) (type_ : Ty)
  | defineFunction (mdata name tparams : Unit) (parameters : List (Unit × Unit × Ty))
      (body : Option Expression) (return_type : Ty)
  | defineDimension (name mdata : Unit)
  | defineBaseUnit (name mdata : Unit) (type_ : Ty)
  | defineDerivedUnit (name : Unit) (e : Expression) (mdata : Unit) (type_ : Ty)
  | procedureCall (kind : Unit) (args : List Expression)
  | defineStruct (info : StructInfo)
deriving Repr

/-- The `for (_, _, parameter_type) in parameters` loop of
`Statement::DefineFunction`. -/
def Statement.applyParams (s : Substitution) :
    List (Unit × Unit × Ty) → Except SubstitutionError (List (Unit × Unit × Ty))
  | [] => .ok []
  | (a, b, t) :: ps => do
    let t' ← t.apply s
    let ps' ← Statement.applyParams s ps
    .ok ((a, b, t') :: ps')

/-- Rust `impl ApplySubstitution for Statement`. -/
def Statement.apply (s : Substitution) : Statement → Except SubstitutionError Statement
  | .expression e => do
    .ok (.expression (← e.apply s))
  | .defineVariable name mdata e type_ => do
    let e' ← e.apply s
    .ok (.defineVariable name mdata e' (← type_.apply s))
  | .defineFunction mdata name tparams parameters body return_type => do
    let ps ← Statement.applyParams s parameters
    let b ← match body with
      | some body => do
        let b' ← body.apply s
        pure (some b')
      | none => pure none
    .ok (.defineFunction mdata name tparams ps b (← return_type.apply s))
  | .defineDimension name mdata => .ok (.defineDimension name mdata)
  | .defineBaseUnit name mdata type_ => do
    .ok (.defineBaseUnit name mdata (← type_.apply s))
  | .defineDerivedUnit name e mdata type_ => do
    let e' ← e.apply s
    .ok (.defineDerivedUnit name e' mdata (← type_.apply s))
  | .procedureCall kind args => do
    .ok (.procedureCall kind (← Expression.applyArgs s args))
  | .defineStruct info => do
    .ok (.defineStruct (← info.apply s))

/-- The `for (_, t) in &mut self.0 { t.apply(&other).unwrap(); }` loop of
`Substitution::extend`: apply `other` to every right-hand side; the
`unwrap` of an `Err` result (a panic) is modelled as `none`. -/
def Substitution.extendPairs (s2 : Substitution) :
    List (TypeVariable × Ty) → Option (List (TypeVariable × Ty))
  | [] => some []
  | p :: ps => do
    let t ← ((p.2).apply s2).toOption
    let rest ← Substitution.extendPairs s2 ps
    some ((p.1, t) :: rest)

/-- Rust `Substitution::extend`: apply `other` to every right-hand side already
in `self` (unwrapping the `Result`), then append `other`'s bindings. -/
def Substitution.extend (s1 s2 : Substitution) : Option Substitution := do
  let ps ← Substitution.extendPairs s2 s1.pairs
  some ⟨ps ++ s2.pairs⟩

/-! Helper definitions used by the verification (not part of the source):
total counterparts of the `apply` functions (the source's `apply` never
errors, which is proved below), the composed substitution produced by a
successful `extend`, and the name/denotation views of exponent vectors. -/

mutual

/-- Total counterpart of `Ty.apply` (extracted value of the always-`ok` result). -/
def Ty.applyT (s : Substitution) : Ty → Ty
  | .tvar v =>
    match s.lookup v with
    | some t => t
    | none => .tvar v
  | .dimension d => .dimension d
  | .boolean => .boolean
  | .string => .string
  | .dateTime => .dateTime
  | .fn param_types return_type =>
    .fn (Ty.applyListT s param_types) (Ty.applyT s return_type)
  | .struct info => .struct (StructInfo.applyT s info)
  | .list element_type => .list (Ty.applyT s element_type)

/-- Total counterpart of `Ty.applyList`. -/
def Ty.applyListT (s : Substitution) : List Ty → List Ty
  | [] => []
  | t :: ts => Ty.applyT s t :: Ty.applyListT s ts

/-- Total counterpart of `StructInfo.apply`. -/
def StructInfo.applyT (s : Substitution) : StructInfo → StructInfo
  | .mk name fields => .mk name (StructInfo.applyFieldsT s fields)

/-- Total counterpart of `StructInfo.applyFields`. -/
def StructInfo.applyFieldsT (s : Substitution) :
    List (String × Unit × Ty) → List (String × Unit × Ty)
  | [] => []
  | (n, m, t) :: fs => (n, m, Ty.applyT s t) :: StructInfo.applyFieldsT s fs

end

/-- The substitution a successful `Substitution.extend` produces: `other`
applied to every right-hand side of `self`, then `other`'s bindings
appended. -/
def Substitution.extendT (s1 s2 : Substitution) : Substitution :=
  ⟨s1.pairs.map (fun p => (p.1, Ty.applyT s2 p.2)) ++ s2.pairs⟩

/-- View of an exponent vector: the list of its base names. -/
def names (l : List (BaseEntry × Exponent)) : List BaseEntry :=
  l.map Prod.fst

/-- View of an exponent vector: the same names with all exponents zeroed. -/
def zeroed (l : List (BaseEntry × Exponent)) : List (BaseEntry × Exponent) :=
  l.map (fun p => (p.1, (0 : Int)))

/-- Denotation of an exponent vector: the total exponent it assigns to a
base name (absent names count as exponent 0). -/
def denote (l : List (BaseEntry × Exponent)) (n : BaseEntry) : Int :=
  (l.map (fun p => if p.1 = n then p.2 else 0)).sum

/-- Two representations denote the same physical dimension: they assign
the same total exponent to every base name. -/
def denotesSame (r1 r2 : BaseRepresentation) : Prop :=
  ∀ n, denote r1.components n = denote r2.components n

/-! Lemmas about the exponent-vector algebra. -/

theorem names_nil : names [] = [] := rfl

theorem names_cons (p : BaseEntry × Exponent) (l : List (BaseEntry × Exponent)) :
    names (p :: l) = p.1 :: names l := rfl

theorem names_append (l1 l2 : List (BaseEntry × Exponent)) :
    names (l1 ++ l2) = names l1 ++ names l2 := by
  simp [names]

theorem names_zeroed (l : List (BaseEntry × Exponent)) : names (zeroed l) = names l := by
  simp [names, zeroed]

theorem zeroed_append (l1 l2 : List (BaseEntry × Exponent)) :
    zeroed (l1 ++ l2) = zeroed l1 ++ zeroed l2 := by
  simp [zeroed]

theorem compLe_trans (a b c : BaseEntry × Exponent) (hab : compLe a b) (hbc : compLe b c) :
    compLe a c := by
  simp only [compLe, decide_eq_true_eq] at hab hbc ⊢
  rcases hab with h1 | ⟨h1, h1'⟩ <;> rcases hbc with h2 | ⟨h2, h2'⟩
  · exact Or.inl (lt_trans h1 h2)
  · exact Or.inl (h2 ▸ h1)
  · exact Or.inl (h1 ▸ h2)
  · exact Or.inr ⟨h1.trans h2, le_trans h1' h2'⟩

theorem compLe_total (a b : BaseEntry × Exponent) : compLe a b || compLe b a := by
  simp only [compLe, Bool.or_eq_true, decide_eq_true_eq]
  rcases lt_trichotomy a.1 b.1 with h | h | h
  · exact Or.inl (Or.inl h)
  · rcases le_total a.2 b.2 with h2 | h2
    · exact Or.inl (Or.inr ⟨h, h2⟩)
    · exact Or.inr (Or.inr ⟨h.symm, h2⟩)
  · exact Or.inr (Or.inl h)

theorem mergeOne_of_not_mem {acc : List (BaseEntry × Exponent)}
    {c : BaseEntry × Exponent} (h : c.1 ∉ names acc) : mergeOne acc c = acc ++ [c] := by
  induction acc with
  | nil => rfl
  | cons p ps ih =>
    rw [names_cons, List.mem_cons] at h
    push_neg at h
    rw [mergeOne, if_neg (fun he => h.1 he.symm)]
    rw [ih h.2, List.cons_append]

theorem mem_names_mergeOne {m : BaseEntry} {acc : List (BaseEntry × Exponent)}
    {c : BaseEntry × Exponent} (h : m ∈ names (mergeOne acc c)) :
    m ∈ names acc ∨ m = c.1 := by
  induction acc with
  | nil => simpa [mergeOne, names] using h
  | cons p ps ih =>
    by_cases hpc : p.1 = c.1
    · rw [mergeOne, if_pos hpc, names_cons] at h
      rcases List.mem_cons.1 h with h' | h'
      · exact Or.inl (by rw [names_cons]; exact List.mem_cons.2 (Or.inl h'))
      · exact Or.inl (by rw [names_cons]; exact List.mem_cons.2 (Or.inr h'))
    · rw [mergeOne, if_neg hpc, names_cons] at h
      rcases List.mem_cons.1 h with h' | h'
      · exact Or.inl (by rw [names_cons]; exact List.mem_cons.2 (Or.inl h'))
      · rcases ih h' with h'' | h''
        · exact Or.inl (by rw [names_cons]; exact List.mem_cons.2 (Or.inr h''))
        · exact Or.inr h''

theorem nodup_names_mergeOne {acc : List (BaseEntry × Exponent)}
    {c : BaseEntry × Exponent} (h : (names acc).Nodup) :
    (names (mergeOne acc c)).Nodup := by
  induction acc with
  | nil => simp [mergeOne, names]
  | cons p ps ih =>
    rw [names_cons, List.nodup_cons] at h
    by_cases hpc : p.1 = c.1
    · rw [mergeOne, if_pos hpc, names_cons]
      exact List.nodup_cons.2 ⟨h.1, h.2⟩
    · rw [mergeOne, if_neg hpc, names_cons]
      refine List.nodup_cons.2 ⟨fun hm => ?_, ih h.2⟩
      rcases mem_names_mergeOne hm with h' | h'
      · exact h.1 h'
      · exact hpc h'

theorem nodup_names_foldl_mergeOne (cs : List (BaseEntry × Exponent)) :
    ∀ acc, (names acc).Nodup → (names (cs.foldl mergeOne acc)).Nodup := by
  induction cs with
  | nil => exact fun acc h => h
  | cons c cs ih =>
    intro acc h
    rw [List.foldl_cons]
    exact ih _ (nodup_names_mergeOne h)

theorem foldl_mergeOne_of_disjoint (cs : List (BaseEntry × Exponent)) :
    ∀ acc, (names cs).Nodup → (∀ n, n ∈ names cs → n ∉ names acc) →
    cs.foldl mergeOne acc = acc ++ cs := by
  induction cs with
  | nil => intro acc _ _; simp
  | cons c cs ih =>
    intro acc hnd hdisj
    rw [names_cons, List.nodup_cons] at hnd
    rw [List.foldl_cons,
      mergeOne_of_not_mem (hdisj c.1 (by rw [names_cons]; exact List.mem_cons_self _ _)),
      ih (acc ++ [c]) hnd.2 ?_]
    · simp
    · intro n hn
      rw [names_append, List.mem_append]
      push_neg
      refine ⟨hdisj n (by rw [names_cons]; exact List.mem_cons.2 (Or.inr hn)), ?_⟩
      simp only [names, List.map_cons, List.map_nil, List.mem_singleton]
      exact fun he => hnd.1 (he ▸ hn)

theorem mergeOne_insert {l1 l2 : List (BaseEntry × Exponent)} {n : BaseEntry}
    {e e' : Exponent} (h : n ∉ names l1) :
    mergeOne (l1 ++ (n, e) :: l2) (n, e') = l1 ++ (n, e + e') :: l2 := by
  induction l1 with
  | nil => simp [mergeOne]
  | cons p ps ih =>
    rw [names_cons, List.mem_cons] at h
    push_neg at h
    rw [List.cons_append, mergeOne, if_neg (fun he => h.1 he.symm), ih h.2,
      List.cons_append]

theorem foldl_mergeOne_invert (rest : List (BaseEntry × Exponent)) :
    ∀ pre, (names (pre ++ rest)).Nodup →
    (rest.map (fun p => (p.1, -p.2))).foldl mergeOne (zeroed pre ++ rest) =
      zeroed (pre ++ rest) := by
  induction rest with
  | nil => intro pre _; simp
  | cons c cs ih =>
    intro pre hnd
    have hc1 : c.1 ∉ names pre := by
      rw [names_append, List.nodup_append] at hnd
      intro hmem
      exact hnd.2.2 hmem (by rw [names_cons]; exact List.mem_cons_self _ _)
    have step : mergeOne (zeroed pre ++ c :: cs) (c.1, -c.2) =
        zeroed pre ++ (c.1, 0) :: cs := by
      have : c = (c.1, c.2) := rfl
      rw [this, ← names_zeroed pre] at *
      rw [mergeOne_insert hc1]
      norm_num
    rw [List.map_cons, List.foldl_cons, step]
    have hre : zeroed pre ++ (c.1, 0) :: cs = zeroed (pre ++ [(c.1, c.2)]) ++ cs := by
      rw [zeroed_append]
      simp [zeroed]
    rw [hre, ih (pre ++ [(c.1, c.2)]) ?_]
    · rw [List.append_assoc, zeroed_append, zeroed_append]
      simp [zeroed]
    · have : pre ++ [(c.1, c.2)] ++ cs = pre ++ c :: cs := by simp
      rw [this]
      exact hnd

theorem denote_nil (n : BaseEntry) : denote [] n = 0 := rfl

theorem denote_cons (p : BaseEntry × Exponent) (l : List (BaseEntry × Exponent))
    (n : BaseEntry) :
    denote (p :: l) n = (if p.1 = n then p.2 else 0) + denote l n := by
  simp [denote]

theorem denote_eq_zero_of_not_mem {l : List (BaseEntry × Exponent)} {n : BaseEntry}
    (h : n ∉ names l) : denote l n = 0 := by
  induction l with
  | nil => rfl
  | cons p ps ih =>
    rw [names_cons, List.mem_cons] at h
    push_neg at h
    rw [denote_cons, if_neg (fun he => h.1 he.symm), ih h.2, add_zero]

theorem denote_head {p : BaseEntry × Exponent} {l : List (BaseEntry × Exponent)}
    (h : p.1 ∉ names l) : denote (p :: l) p.1 = p.2 := by
  rw [denote_cons, if_pos rfl, denote_eq_zero_of_not_mem h, add_zero]

theorem not_mem_names_of_pairwise_lt {p : BaseEntry × Exponent}
    {l : List (BaseEntry × Exponent)}
    (h : List.Pairwise (fun a b => a.1 < b.1) (p :: l)) : p.1 ∉ names l := by
  rw [List.pairwise_cons] at h
  intro hmem
  rcases List.mem_map.1 hmem with ⟨q, hq, hq1⟩
  exact absurd (hq1 ▸ h.1 q hq) (lt_irrefl p.1)

/-- Canonical exponent vectors (strictly sorted names, no zero exponents)
are determined by their denotation. -/
theorem canonical_unique : ∀ (l1 l2 : List (BaseEntry × Exponent)),
    List.Pairwise (fun a b => a.1 < b.1) l1 →
    List.Pairwise (fun a b => a.1 < b.1) l2 →
    (∀ p ∈ l1, p.2 ≠ 0) → (∀ p ∈ l2, p.2 ≠ 0) →
    (∀ n, denote l1 n = denote l2 n) → l1 = l2 := by
  intro l1
  induction l1 with
  | nil =>
    intro l2 _ h2 _ hz2 hden
    cases l2 with
    | nil => rfl
    | cons q l2' =>
      exfalso
      apply hz2 q (List.mem_cons_self _ _)
      have := hden q.1
      rw [denote_nil, denote_head (not_mem_names_of_pairwise_lt h2)] at this
      exact this.symm
  | cons p l1' ih =>
    intro l2 h1 h2 hz1 hz2 hden
    cases l2 with
    | nil =>
      exfalso
      apply hz1 p (List.mem_cons_self _ _)
      have := hden p.1
      rw [denote_nil, denote_head (not_mem_names_of_pairwise_lt h1)] at this
      exact this
    | cons q l2' =>
      rcases lt_trichotomy p.1 q.1 with hlt | heq | hgt
      · exfalso
        apply hz1 p (List.mem_cons_self _ _)
        have hq : p.1 ∉ names (q :: l2') := by
          rw [names_cons, List.mem_cons]
          push_neg
          refine ⟨ne_of_lt hlt, fun hmem => ?_⟩
          rcases List.mem_map.1 hmem with ⟨r, hr, hr1⟩
          rw [List.pairwise_cons] at h2
          exact absurd (hr1 ▸ h2.1 r hr) (fun hqr => absurd (lt_trans hlt hqr) (lt_irrefl p.1))
        have := hden p.1
        rw [denote_head (not_mem_names_of_pairwise_lt h1),
          denote_eq_zero_of_not_mem hq] at this
        exact this
      · have hep : p.2 = q.2 := by
          have := hden p.1
          rw [denote_head (not_mem_names_of_pairwise_lt h1)] at this
          rw [this, heq, denote_head (not_mem_names_of_pairwise_lt h2)]
        have hpq : p = q := Prod.ext heq hep
        subst hpq
        have htails : ∀ n, denote l1' n = denote l2' n := by
          intro n
          by_cases hn : p.1 = n
          · rw [← hn, denote_eq_zero_of_not_mem (not_mem_names_of_pairwise_lt h1),
              denote_eq_zero_of_not_mem (not_mem_names_of_pairwise_lt h2)]
          · have := hden n
            rw [denote_cons, denote_cons, if_neg hn] at this
            omega
        rw [ih l2' (List.Pairwise.of_cons h1) (List.Pairwise.of_cons h2)
          (fun r hr => hz1 r (List.mem_cons.2 (Or.inr hr)))
          (fun r hr => hz2 r (List.mem_cons.2 (Or.inr hr))) htails]
      · exfalso
        apply hz2 q (List.mem_cons_self _ _)
        have hq : q.1 ∉ names (p :: l1') := by
          rw [names_cons, List.mem_cons]
          push_neg
          refine ⟨ne_of_lt hgt, fun hmem => ?_⟩
          rcases List.mem_map.1 hmem with ⟨r, hr, hr1⟩
          rw [List.pairwise_cons] at h1
          exact absurd (hr1 ▸ h1.1 r hr) (fun hqr => absurd (lt_trans hgt hqr) (lt_irrefl q.1))
        have := hden q.1
        rw [denote_head (not_mem_names_of_pairwise_lt h2),
          denote_eq_zero_of_not_mem hq] at this
        exact this.symm

/-! Lemmas about `merge_base_representations`. -/

theorem merge_components (lhs rhs : BaseRepresentation) :
    (merge_base_representations lhs rhs).components =
      ((rhs.components.foldl mergeOne lhs.components).filter
        (fun p => p.2 ≠ 0)).mergeSort compLe := rfl

theorem merge_eval_aux (lhs rhs : BaseRepresentation)
    (l : List (BaseEntry × Exponent))
    (h : (rhs.components.foldl mergeOne lhs.components).filter (fun p => p.2 ≠ 0) = l)
    (hs : List.Pairwise (fun a b => compLe a b) l) :
    merge_base_representations lhs rhs = ⟨l⟩ := by
  have e : merge_base_representations lhs rhs =
      ⟨((rhs.components.foldl mergeOne lhs.components).filter
        (fun p => p.2 ≠ 0)).mergeSort compLe⟩ := rfl
  rw [e, h, List.mergeSort_of_sorted hs]

theorem merge_nonzero (lhs rhs : BaseRepresentation) :
    ∀ p ∈ (merge_base_representations lhs rhs).components, p.2 ≠ 0 := by
  intro p hp
  rw [merge_components] at hp
  have h1 := List.mem_mergeSort.1 hp
  have h2 := List.of_mem_filter h1
  simpa using h2

theorem merge_sorted (lhs rhs : BaseRepresentation) :
    List.Pairwise (fun a b => compLe a b)
      (merge_base_representations lhs rhs).components := by
  rw [merge_components]
  exact List.sorted_mergeSort compLe_trans compLe_total _

theorem merge_nodup_names (lhs rhs : BaseRepresentation)
    (h : (names lhs.components).Nodup) :
    (names (merge_base_representations lhs rhs).components).Nodup := by
  have h1 : (names (rhs.components.foldl mergeOne lhs.components)).Nodup :=
    nodup_names_foldl_mergeOne _ _ h
  have h2 : (names ((rhs.components.foldl mergeOne lhs.components).filter
      (fun p => p.2 ≠ 0))).Nodup :=
    h1.sublist ((List.filter_sublist _).map Prod.fst)
  rw [merge_components]
  have hperm : List.Perm
      (names (((rhs.components.foldl mergeOne lhs.components).filter
        (fun p => p.2 ≠ 0)).mergeSort compLe))
      (names ((rhs.components.foldl mergeOne lhs.components).filter
        (fun p => p.2 ≠ 0))) :=
    (List.mergeSort_perm _ _).map Prod.fst
  exact hperm.nodup_iff.2 h2

theorem merge_pairwise_lt (lhs rhs : BaseRepresentation)
    (h : (names lhs.components).Nodup) :
    List.Pairwise (fun a b => a.1 < b.1)
      (merge_base_representations lhs rhs).components := by
  have hs := merge_sorted lhs rhs
  have hn : List.Pairwise (fun a b : BaseEntry × Exponent => a.1 ≠ b.1)
      (merge_base_representations lhs rhs).components :=
    (List.pairwise_map).1 (merge_nodup_names lhs rhs h)
  refine (hs.and hn).imp ?_
  rintro a b ⟨hc, hne⟩
  simp only [compLe, decide_eq_true_eq] at hc
  rcases hc with h' | ⟨h', _⟩
  · exact h'
  · exact absurd h' hne

theorem merge_scalar_right {r : BaseRepresentation}
    (hz : ∀ p ∈ r.components, p.2 ≠ 0)
    (hs : List.Pairwise (fun a b => compLe a b) r.components) :
    merge_base_representations r .scalar = r := by
  obtain ⟨comps⟩ := r
  refine merge_eval_aux _ _ _ ?_ hs
  show (List.foldl mergeOne comps []).filter (fun p => p.2 ≠ 0) = comps
  rw [List.foldl_nil]
  exact List.filter_eq_self.2 (fun p hp => decide_eq_true (hz p hp))

theorem merge_scalar_left {r : BaseRepresentation}
    (hz : ∀ p ∈ r.components, p.2 ≠ 0)
    (hs : List.Pairwise (fun a b => compLe a b) r.components)
    (hnd : (names r.components).Nodup) :
    merge_base_representations .scalar r = r := by
  obtain ⟨comps⟩ := r
  refine merge_eval_aux _ _ _ ?_ hs
  show (comps.foldl mergeOne []).filter (fun p => p.2 ≠ 0) = comps
  rw [foldl_mergeOne_of_disjoint comps [] hnd (fun n _ hn => by simp [names] at hn),
    List.nil_append]
  exact List.filter_eq_self.2 (fun p hp => decide_eq_true (hz p hp))

theorem merge_invert_eq_scalar {r : BaseRepresentation}
    (hnd : (names r.components).Nodup) :
    merge_base_representations r r.invert = .scalar := by
  refine merge_eval_aux _ _ _ ?_ (List.Pairwise.nil)
  show ((r.invert.components).foldl mergeOne r.components).filter (fun p => p.2 ≠ 0) = []
  have hinv : r.invert.components = r.components.map (fun p => (p.1, -p.2)) := rfl
  have hfold := foldl_mergeOne_invert r.components [] (by simpa using hnd)
  rw [hinv]
  simp only [zeroed, List.map_nil, List.nil_append] at hfold
  rw [hfold]
  rw [List.filter_eq_nil_iff]
  intro p hp
  rcases List.mem_map.1 hp with ⟨q, _, hq⟩
  simp [← hq]

theorem baseRepresentation_eq_of_components_eq {r1 r2 : BaseRepresentation}
    (h : r1.components = r2.components) : r1 = r2 := by
  cases r1
  cases r2
  cases h
  rfl

/-! Claims about the registry. -/

/-- C3 counterexample: for the non-canonical representation `{("a", 0)}`,
merging with the scalar representation (in either order) does not return
the representation itself — the zero-exponent component is dropped. -/
theorem c3_counterexample :
    ¬ (merge_base_representations .scalar ⟨[("a", 0)]⟩ = ⟨[("a", 0)]⟩ ∧
       merge_base_representations ⟨[("a", 0)]⟩ .scalar = ⟨[("a", 0)]⟩) := by
  have e1 : merge_base_representations .scalar ⟨[("a", 0)]⟩ = ⟨[]⟩ :=
    merge_eval_aux _ _ _ (by decide) (by simp)
  rintro ⟨h1, _⟩
  rw [e1] at h1
  exact absurd h1 (by decide)

/-- C3 (amended): for every canonical `BaseRepresentation` `r` — no zero
exponents, components sorted in the canonical order, and no duplicate
names — merging the empty scalar representation with `r` in either
argument order returns a representation structurally equal to `r`. -/
theorem c3_merge_scalar_identity (r : BaseRepresentation)
    (hz : ∀ p ∈ r.components, p.2 ≠ 0)
    (hs : List.Pairwise (fun a b => compLe a b) r.components)
    (hnd : (names r.components).Nodup) :
    merge_base_representations .scalar r = r ∧
    merge_base_representations r .scalar = r :=
  ⟨merge_scalar_left hz hs hnd, merge_scalar_right hz hs⟩

/-- C3 witness: the identity laws at the concrete canonical
representation `{("a", 1)}`. -/
theorem c3_witness :
    merge_base_representations .scalar ⟨[("a", 1)]⟩ = ⟨[("a", 1)]⟩ ∧
    merge_base_representations ⟨[("a", 1)]⟩ .scalar = ⟨[("a", 1)]⟩ :=
  c3_merge_scalar_identity ⟨[("a", 1)]⟩ (by decide) (by simp) (by decide)

/-- C4 counterexample: for the duplicate-name representation
`{("a", 1), ("a", 2)}`, merging with its inversion does not reduce to
`scalar()` — the negated exponents are both absorbed by the first
duplicate, leaving `{("a", -2), ("a", 2)}`. -/
theorem c4_counterexample :
    merge_base_representations ⟨[("a", 1), ("a", 2)]⟩
      (BaseRepresentation.invert ⟨[("a", 1), ("a", 2)]⟩) ≠ .scalar := by
  have e : merge_base_representations ⟨[("a", 1), ("a", 2)]⟩
      (BaseRepresentation.invert ⟨[("a", 1), ("a", 2)]⟩) = ⟨[("a", -2), ("a", 2)]⟩ := by
    refine merge_eval_aux _ _ _ (by decide) ?_
    refine List.pairwise_cons.2 ⟨fun b hb => ?_, by simp⟩
    rw [List.mem_singleton] at hb
    subst hb
    exact decide_eq_true (Or.inr ⟨rfl, by norm_num⟩)
  rw [e]
  decide

/-- C4 (amended): for every `BaseRepresentation` `r` whose component names
are pairwise distinct, merging `r` with its inversion `r.invert()` yields
the scalar representation (empty component list). -/
theorem c4_merge_invert (r : BaseRepresentation)
    (hnd : (names r.components).Nodup) :
    merge_base_representations r r.invert = .scalar :=
  merge_invert_eq_scalar hnd

/-- C4 witness: the spec's concrete scenario C,
`merge({("length", 2)}, {("length", -2)}) = scalar()`. -/
theorem c4_witness :
    merge_base_representations ⟨[("length", 2)]⟩ ⟨[("length", -2)]⟩ = .scalar := by
  have h : (⟨[("length", -2)]⟩ : BaseRepresentation) =
      BaseRepresentation.invert ⟨[("length", 2)]⟩ := rfl
  rw [h]
  exact c4_merge_invert ⟨[("length", 2)]⟩ (by decide)

/-- C5 counterexample: the two merge results
`merge({("a", 1), ("a", 1)}, scalar())` and `merge({("a", 2)}, scalar())`
denote the same physical dimension (total exponent 2 on "a") but are not
structurally equal, because duplicate-name inputs survive merging
untouched. -/
theorem c5_counterexample :
    denotesSame (merge_base_representations ⟨[("a", 1), ("a", 1)]⟩ .scalar)
      (merge_base_representations ⟨[("a", 2)]⟩ .scalar) ∧
    merge_base_representations ⟨[("a", 1), ("a", 1)]⟩ .scalar ≠
      merge_base_representations ⟨[("a", 2)]⟩ .scalar := by
  have e1 : merge_base_representations ⟨[("a", 1), ("a", 1)]⟩ .scalar =
      ⟨[("a", 1), ("a", 1)]⟩ := by
    refine merge_eval_aux _ _ _ (by decide) ?_
    refine List.pairwise_cons.2 ⟨fun b hb => ?_, by simp⟩
    rw [List.mem_singleton] at hb
    subst hb
    exact decide_eq_true (Or.inr ⟨rfl, by norm_num⟩)
  have e2 : merge_base_representations ⟨[("a", 2)]⟩ .scalar = ⟨[("a", 2)]⟩ :=
    merge_eval_aux _ _ _ (by decide) (by simp)
  refine ⟨fun n => ?_, ?_⟩
  · rw [e1, e2]
    show denote [("a", 1), ("a", 1)] n = denote [("a", 2)] n
    by_cases h : ("a" : String) = n <;> simp [denote, h]
  · rw [e1, e2]
    decide

/-- C5 (amended): every `BaseRepresentation` returned by
`merge_base_representations` has no zero-exponent component and is sorted
in the single canonical order; moreover, when the merged left operands
have duplicate-free component names, two merge results denoting the same
physical dimension compare structurally equal. -/
theorem c5_merge_canonical_form (lhs rhs : BaseRepresentation) :
    (∀ p ∈ (merge_base_representations lhs rhs).components, p.2 ≠ 0) ∧
    List.Pairwise (fun a b => compLe a b)
      (merge_base_representations lhs rhs).components ∧
    (∀ lhs' rhs' : BaseRepresentation,
      (names lhs.components).Nodup → (names lhs'.components).Nodup →
      denotesSame (merge_base_representations lhs rhs)
        (merge_base_representations lhs' rhs') →
      merge_base_representations lhs rhs = merge_base_representations lhs' rhs') := by
  refine ⟨merge_nonzero lhs rhs, merge_sorted lhs rhs, ?_⟩
  intro lhs' rhs' h1 h2 hden
  exact baseRepresentation_eq_of_components_eq
    (canonical_unique _ _ (merge_pairwise_lt lhs rhs h1) (merge_pairwise_lt lhs' rhs' h2)
      (merge_nonzero lhs rhs) (merge_nonzero lhs' rhs') hden)

/-- C5 witness: two structurally different constructions of the dimension
"a" merge to structurally equal canonical results. -/
theorem c5_witness :
    merge_base_representations .scalar ⟨[("a", 1)]⟩ =
      merge_base_representations ⟨[("a", 1)]⟩ .scalar :=
  (c5_merge_canonical_form .scalar ⟨[("a", 1)]⟩).2.2 ⟨[("a", 1)]⟩ .scalar
    (by decide) (by decide)
    (fun n => by
      rw [merge_eval_aux BaseRepresentation.scalar ⟨[("a", 1)]⟩ [("a", 1)]
          (by decide) (by simp),
        merge_eval_aux ⟨[("a", 1)]⟩ BaseRepresentation.scalar [("a", 1)]
          (by decide) (by simp)])

/-- C6: `get_base_representation_for_name` returns the base singleton for
base entries, the memoized derived representation otherwise, and fails
with `UnknownEntry` when neither exists; on the empty registry every
lookup fails with `UnknownEntry`. -/
theorem c6_get_base_representation_for_name {M : Type} (reg : Registry M)
    (name : String) :
    (reg.is_base_entry name = true →
      reg.get_base_representation_for_name name =
        .ok (BaseRepresentation.from_components [(name, 1)])) ∧
    (∀ rep, reg.is_base_entry name = false →
      reg.derived_entries.lookup name = some rep →
      reg.get_base_representation_for_name name = .ok rep) ∧
    (reg.is_base_entry name = false → reg.derived_entries.lookup name = none →
      reg.get_base_representation_for_name name = .error (.unknownEntry name)) ∧
    (Registry.default M).get_base_representation_for_name name =
      .error (.unknownEntry name) := by
  refine ⟨fun h => ?_, fun rep h hl => ?_, fun h hl => ?_, rfl⟩
  · simp [Registry.get_base_representation_for_name, h]
  · simp [Registry.get_base_representation_for_name, h, hl]
  · simp [Registry.get_base_representation_for_name, h, hl]

/-- C6 witness: the three cases at concrete registries — base entry
"length", memoized derived entry "speed", and an unknown name on the
empty registry. -/
theorem c6_witness :
    (Registry.mk [("length", ())] [("speed", ⟨[("length", 1), ("time", -1)]⟩)]
        : Registry Unit).get_base_representation_for_name "length" =
      .ok (BaseRepresentation.from_components [("length", 1)]) ∧
    (Registry.mk [("length", ())] [("speed", ⟨[("length", 1), ("time", -1)]⟩)]
        : Registry Unit).get_base_representation_for_name "speed" =
      .ok ⟨[("length", 1), ("time", -1)]⟩ ∧
    (Registry.default Unit).get_base_representation_for_name "unknown" =
      .error (.unknownEntry "unknown") :=
  ⟨(c6_get_base_representation_for_name _ "length").1 (by decide),
   (c6_get_base_representation_for_name _ "speed").2.1
      ⟨[("length", 1), ("time", -1)]⟩ (by decide) rfl,
   (c6_get_base_representation_for_name (Registry.default Unit) "unknown").2.2.2⟩

/-- C7: `add_base_entry` fails with `EntryExists` exactly when the name is
already a base entry (derived entries do not cause a failure); on success
the entry is appended and `is_base_entry` becomes true. -/
theorem c7_add_base_entry {M : Type} (reg : Registry M) (name : String) (m : M) :
    (reg.is_base_entry name = true →
      reg.add_base_entry name m = .error (.entryExists name)) ∧
    (reg.is_base_entry name = false →
      reg.add_base_entry name m =
        .ok { reg with base_entries := reg.base_entries ++ [(name, m)] } ∧
      Registry.is_base_entry
        { reg with base_entries := reg.base_entries ++ [(name, m)] } name = true) := by
  refine ⟨fun h => ?_, fun h => ⟨?_, ?_⟩⟩
  · simp [Registry.add_base_entry, h]
  · simp [Registry.add_base_entry, h]
  · simp [Registry.is_base_entry]

/-- C7 witness: a second `add_base_entry("length")` fails with
`EntryExists`, while a name occupied only in the derived namespace is
added successfully and becomes a base entry. -/
theorem c7_witness :
    (Registry.mk [("length", ())] [] : Registry Unit).add_base_entry "length" () =
      .error (.entryExists "length") ∧
    (Registry.mk [] [("x", .scalar)] : Registry Unit).add_base_entry "x" () =
      .ok (Registry.mk [("x", ())] [("x", .scalar)]) ∧
    (Registry.mk [("x", ())] [("x", .scalar)] : Registry Unit).is_base_entry "x" = true :=
  ⟨(c7_add_base_entry (Registry.mk [("length", ())] []) "length" ()).1 (by decide),
   ((c7_add_base_entry (Registry.mk [] [("x", .scalar)]) "x" ()).2 (by decide)).1,
   ((c7_add_base_entry (Registry.mk [] [("x", .scalar)]) "x" ()).2 (by decide)).2⟩

/-- C10: when a name is both a base entry and a derived entry,
`get_base_representation_for_name` returns the base singleton, ignoring
the cached derived representation. -/
theorem c10_base_entry_precedence {M : Type} (reg : Registry M) (name : String)
    (rep : BaseRepresentation)
    (hb : reg.is_base_entry name = true)
    (_hd : reg.derived_entries.lookup name = some rep) :
    reg.get_base_representation_for_name name =
      .ok (BaseRepresentation.from_components [(name, 1)]) := by
  simp [Registry.get_base_representation_for_name, hb]

/-- C10 witness: a registry where "m" is a base entry and also has a
cached derived representation `{("x", 1)}`; the lookup returns the base
singleton `{("m", 1)}`. -/
theorem c10_witness :
    (Registry.mk [("m", ())] [("m", ⟨[("x", 1)]⟩)]
        : Registry Unit).get_base_representation_for_name "m" =
      .ok (BaseRepresentation.from_components [("m", 1)]) :=
  c10_base_entry_precedence _ "m" ⟨[("x", 1)]⟩ (by decide) rfl

/-! Lemmas about the substitution engine. -/

@[simp] theorem ok_bind {ε α β : Type} (a : α) (f : α → Except ε β) :
    (Except.ok a : Except ε α) >>= f = f a := rfl

mutual

theorem Ty.apply_eq_applyT (s : Substitution) :
    ∀ t, Ty.apply s t = .ok (Ty.applyT s t)
  | .tvar v => by cases h : s.lookup v <;> simp [Ty.apply, Ty.applyT, h]
  | .dimension d => by simp [Ty.apply, Ty.applyT, DType.apply]
  | .boolean => rfl
  | .string => rfl
  | .dateTime => rfl
  | .fn ps r => by
    simp [Ty.apply, Ty.applyT, Ty.applyList_eq_applyListT s ps, Ty.apply_eq_applyT s r]
  | .struct i => by
    simp [Ty.apply, Ty.applyT, StructInfo.structApply_eq_applyT s i]
  | .list e => by
    simp [Ty.apply, Ty.applyT, Ty.apply_eq_applyT s e]

theorem Ty.applyList_eq_applyListT (s : Substitution) :
    ∀ ts, Ty.applyList s ts = .ok (Ty.applyListT s ts)
  | [] => rfl
  | t :: ts => by
    simp [Ty.applyList, Ty.applyListT, Ty.apply_eq_applyT s t,
      Ty.applyList_eq_applyListT s ts]

theorem StructInfo.structApply_eq_applyT (s : Substitution) :
    ∀ i, StructInfo.apply s i = .ok (StructInfo.applyT s i)
  | .mk n fields => by
    simp [StructInfo.apply, StructInfo.applyT, StructInfo.applyFields_eq_applyFieldsT s fields]

theorem StructInfo.applyFields_eq_applyFieldsT (s : Substitution) :
    ∀ fs, StructInfo.applyFields s fs = .ok (StructInfo.applyFieldsT s fs)
  | [] => rfl
  | (n, m, t) :: fs => by
    simp [StructInfo.applyFields, StructInfo.applyFieldsT, Ty.apply_eq_applyT s t,
      StructInfo.applyFields_eq_applyFieldsT s fs]

end

theorem Substitution.extendPairs_eq (s2 : Substitution) :
    ∀ l : List (TypeVariable × Ty),
    Substitution.extendPairs s2 l =
      some (l.map (fun p => (p.1, Ty.applyT s2 p.2)))
  | [] => rfl
  | p :: ps => by
    simp [Substitution.extendPairs, Ty.apply_eq_applyT s2 p.2, Except.toOption,
      Substitution.extendPairs_eq s2 ps]

theorem Substitution.extend_eq_extendT (s1 s2 : Substitution) :
    Substitution.extend s1 s2 = some (Substitution.extendT s1 s2) := by
  unfold Substitution.extend Substitution.extendT
  rw [Substitution.extendPairs_eq]
  rfl

theorem Substitution.lookup_extendT (s1 s2 : Substitution) (v : TypeVariable) :
    (Substitution.extendT s1 s2).lookup v =
      match s1.lookup v with
      | some u => some (Ty.applyT s2 u)
      | none => s2.lookup v := by
  unfold Substitution.lookup Substitution.extendT
  rw [List.find?_append, List.find?_map]
  have hcomp : ((fun p : TypeVariable × Ty => decide (p.1 = v)) ∘
      (fun p : TypeVariable × Ty => (p.1, Ty.applyT s2 p.2))) =
      (fun p : TypeVariable × Ty => decide (p.1 = v)) := rfl
  rw [hcomp]
  cases h : s1.pairs.find? (fun p => p.1 = v) <;> simp [h]

mutual

theorem Ty.applyT_extendT (s1 s2 : Substitution) :
    ∀ t, Ty.applyT (Substitution.extendT s1 s2) t = Ty.applyT s2 (Ty.applyT s1 t)
  | .tvar v => by
    cases h1 : s1.lookup v with
    | some u => simp [Ty.applyT, Substitution.lookup_extendT, h1]
    | none =>
      cases h2 : s2.lookup v <;>
        simp [Ty.applyT, Substitution.lookup_extendT, h1, h2]
  | .dimension d => by simp [Ty.applyT]
  | .boolean => rfl
  | .string => rfl
  | .dateTime => rfl
  | .fn ps r => by
    simp [Ty.applyT, Ty.applyListT_extendT s1 s2 ps, Ty.applyT_extendT s1 s2 r]
  | .struct i => by simp [Ty.applyT, StructInfo.structApplyT_extendT s1 s2 i]
  | .list e => by simp [Ty.applyT, Ty.applyT_extendT s1 s2 e]

theorem Ty.applyListT_extendT (s1 s2 : Substitution) :
    ∀ ts, Ty.applyListT (Substitution.extendT s1 s2) ts =
      Ty.applyListT s2 (Ty.applyListT s1 ts)
  | [] => rfl
  | t :: ts => by
    simp [Ty.applyListT, Ty.applyT_extendT s1 s2 t, Ty.applyListT_extendT s1 s2 ts]

theorem StructInfo.structApplyT_extendT (s1 s2 : Substitution) :
    ∀ i, StructInfo.applyT (Substitution.extendT s1 s2) i =
      StructInfo.applyT s2 (StructInfo.applyT s1 i)
  | .mk n fields => by
    simp [StructInfo.applyT, StructInfo.applyFieldsT_extendT s1 s2 fields]

theorem StructInfo.applyFieldsT_extendT (s1 s2 : Substitution) :
    ∀ fs, StructInfo.applyFieldsT (Substitution.extendT s1 s2) fs =
      StructInfo.applyFieldsT s2 (StructInfo.applyFieldsT s1 fs)
  | [] => rfl
  | (n, m, t) :: fs => by
    simp [StructInfo.applyFieldsT, Ty.applyT_extendT s1 s2 t,
      StructInfo.applyFieldsT_extendT s1 s2 fs]

end

/-! Claims about the substitution engine. -/

/-- C2: for all substitutions `s1`, `s2` and every type `t`, applying the
composed substitution produced by `s1.extend(s2)` to `t` yields the same
result as first applying `s1` to `t` and then applying `s2` to the
result. -/
theorem c2_extend_composition (s1 s2 s12 : Substitution) (t : Ty)
    (h : Substitution.extend s1 s2 = some s12) :
    Ty.apply s12 t = (Ty.apply s1 t).bind (fun t1 => Ty.apply s2 t1) := by
  rw [Substitution.extend_eq_extendT] at h
  obtain rfl := Option.some.inj h
  rw [Ty.apply_eq_applyT, Ty.applyT_extendT]
  simp [Ty.apply_eq_applyT, Except.bind]

/-- C2 witness: composing `{a ↦ b}` with `{b ↦ Boolean}` and applying to
`TVar(a)` agrees with sequential application (both give `Boolean`). -/
theorem c2_witness :
    Substitution.extend (Substitution.single "a" (.tvar "b"))
        (Substitution.single "b" .boolean) =
      some ⟨[("a", Ty.boolean), ("b", Ty.boolean)]⟩ ∧
    Ty.apply ⟨[("a", Ty.boolean), ("b", Ty.boolean)]⟩ (.tvar "a") =
      (Ty.apply (Substitution.single "a" (.tvar "b")) (.tvar "a")).bind
        (fun t1 => Ty.apply (Substitution.single "b" .boolean) t1) :=
  ⟨rfl,
   c2_extend_composition (Substitution.single "a" (.tvar "b"))
     (Substitution.single "b" .boolean) ⟨[("a", Ty.boolean), ("b", Ty.boolean)]⟩
     (.tvar "a") rfl⟩

/-- C8: applying a substitution to a bare type-variable reference replaces
the node with the binding when present and leaves it unchanged when
unbound; applying `{a ↦ Boolean}` to `fn([TVar(a)]) → TVar(a)` yields
`fn([Boolean]) → Boolean`. -/
theorem c8_tvar_replacement :
    (∀ (s : Substitution) (v : TypeVariable) (t : Ty),
      s.lookup v = some t → Ty.apply s (.tvar v) = .ok t) ∧
    (∀ (s : Substitution) (v : TypeVariable),
      s.lookup v = none → Ty.apply s (.tvar v) = .ok (.tvar v)) ∧
    Ty.apply (Substitution.single "a" .boolean) (.fn [.tvar "a"] (.tvar "a")) =
      .ok (.fn [.boolean] .boolean) := by
  refine ⟨fun s v t h => ?_, fun s v h => ?_, rfl⟩
  · simp [Ty.apply, h]
  · simp [Ty.apply, h]

/-- C8 witness: the two type-variable cases at concrete inputs — a bound
variable is replaced, an unbound one is left unchanged. -/
theorem c8_witness :
    Ty.apply (Substitution.single "a" .boolean) (.tvar "a") = .ok .boolean ∧
    Ty.apply (Substitution.single "a" .boolean) (.tvar "b") = .ok (.tvar "b") :=
  ⟨c8_tvar_replacement.1 (Substitution.single "a" .boolean) "a" .boolean rfl,
   c8_tvar_replacement.2.1 (Substitution.single "a" .boolean) "b" rfl⟩

/-- C1 (code bug): the `DType` implementation of `apply` is a stub that
returns `Ok` unchanged for every input, so resolving a type variable
inside a dimension type to the non-dimension type `Boolean` does NOT
produce `SubstitutedNonDTypeWithinDType` as the claim requires — the
error branch is never taken. -/
theorem c1_dtype_apply_is_stub :
    DType.apply (Substitution.single "a" .boolean) ⟨[(.tvar "a", 1)]⟩ =
      .ok ⟨[(.tvar "a", 1)]⟩ ∧
    Ty.apply (Substitution.single "a" .boolean) (.dimension ⟨[(.tvar "a", 1)]⟩) =
      .ok (.dimension ⟨[(.tvar "a", 1)]⟩) ∧
    (∀ (s : Substitution) (d : DType), DType.apply s d = .ok d) :=
  ⟨rfl, rfl, fun _ _ => rfl⟩

mutual

theorem Expression.exprApply_ok (s : Substitution) :
    ∀ e, ∃ e', Expression.apply s e = .ok e'
  | .scalar sp n t => by simp [Expression.apply, Ty.apply_eq_applyT]
  | .identifier sp name t => by simp [Expression.apply, Ty.apply_eq_applyT]
  | .unitIdentifier sp p n f t => by simp [Expression.apply, Ty.apply_eq_applyT]
  | .unaryOperator sp op expr t => by
    obtain ⟨e', he⟩ := Expression.exprApply_ok s expr
    simp [Expression.apply, he, Ty.apply_eq_applyT]
  | .binaryOperator op sp lhs rhs t => by
    obtain ⟨l', hl⟩ := Expression.exprApply_ok s lhs
    obtain ⟨r', hr⟩ := Expression.exprApply_ok s rhs
    simp [Expression.apply, hl, hr, Ty.apply_eq_applyT]
  | .binaryOperatorForDate op sp lhs rhs t => by
    obtain ⟨l', hl⟩ := Expression.exprApply_ok s lhs
    obtain ⟨r', hr⟩ := Expression.exprApply_ok s rhs
    simp [Expression.apply, hl, hr, Ty.apply_eq_applyT]
  | .functionCall sp fsp name args t => by
    obtain ⟨args', ha⟩ := Expression.applyArgs_ok s args
    simp [Expression.apply, ha, Ty.apply_eq_applyT]
  | .callableCall sp callable args t => by
    obtain ⟨c', hc⟩ := Expression.exprApply_ok s callable
    obtain ⟨args', ha⟩ := Expression.applyArgs_ok s args
    simp [Expression.apply, hc, ha, Ty.apply_eq_applyT]
  | .boolean sp val => ⟨.boolean sp val, rfl⟩
  | .condition sp i t e => by
    obtain ⟨i', hi⟩ := Expression.exprApply_ok s i
    obtain ⟨t', ht⟩ := Expression.exprApply_ok s t
    obtain ⟨e', he⟩ := Expression.exprApply_ok s e
    simp [Expression.apply, hi, ht, he]
  | .string sp parts => ⟨.string sp parts, rfl⟩
  | .instantiateStruct sp inits info => by
    obtain ⟨inits', hi⟩ := Expression.applyInits_ok s inits
    simp [Expression.apply, hi, StructInfo.structApply_eq_applyT]
  | .accessField sp1 sp2 inst attr info t => by
    obtain ⟨inst', hi⟩ := Expression.exprApply_ok s inst
    simp [Expression.apply, hi, StructInfo.structApply_eq_applyT, Ty.apply_eq_applyT]
  | .list sp elems t => by
    obtain ⟨elems', he⟩ := Expression.applyArgs_ok s elems
    simp [Expression.apply, he, Ty.apply_eq_applyT]

theorem Expression.applyArgs_ok (s : Substitution) :
    ∀ es, ∃ es', Expression.applyArgs s es = .ok es'
  | [] => ⟨[], rfl⟩
  | e :: es => by
    obtain ⟨e', he⟩ := Expression.exprApply_ok s e
    obtain ⟨es', hes⟩ := Expression.applyArgs_ok s es
    simp [Expression.applyArgs, he, hes]

theorem Expression.applyInits_ok (s : Substitution) :
    ∀ is_ : List (Unit × Expression), ∃ is', Expression.applyInits s is_ = .ok is'
  | [] => ⟨[], rfl⟩
  | (n, e) :: es => by
    obtain ⟨e', he⟩ := Expression.exprApply_ok s e
    obtain ⟨es', hes⟩ := Expression.applyInits_ok s es
    refine ⟨(n, e') :: es', ?_⟩
    simp [Expression.applyInits, he, hes]

end

theorem Statement.applyParams_ok (s : Substitution) :
    ∀ ps : List (Unit × Unit × Ty), ∃ ps', Statement.applyParams s ps = .ok ps' := by
  intro ps
  induction ps with
  | nil => exact ⟨[], rfl⟩
  | cons p ps ih =>
    obtain ⟨ps', hps⟩ := ih
    obtain ⟨a, b, t⟩ := p
    refine ⟨(a, b, Ty.applyT s t) :: ps', ?_⟩
    simp [Statement.applyParams, hps, Ty.apply_eq_applyT]

theorem Statement.stmtApply_ok (s : Substitution) :
    ∀ st, ∃ st', Statement.apply s st = .ok st' := by
  intro st
  cases st with
  | expression e =>
    obtain ⟨e', he⟩ := Expression.exprApply_ok s e
    simp [Statement.apply, he]
  | defineVariable name mdata e t =>
    obtain ⟨e', he⟩ := Expression.exprApply_ok s e
    simp [Statement.apply, he, Ty.apply_eq_applyT]
  | defineFunction mdata name tps params body t =>
    obtain ⟨ps', hps⟩ := Statement.applyParams_ok s params
    cases body with
    | none => simp [Statement.apply, hps, Ty.apply_eq_applyT]
    | some b =>
      obtain ⟨b', hb⟩ := Expression.exprApply_ok s b
      simp [Statement.apply, hps, hb, Ty.apply_eq_applyT]
  | defineDimension name mdata => exact ⟨.defineDimension name mdata, rfl⟩
  | defineBaseUnit name mdata t => simp [Statement.apply, Ty.apply_eq_applyT]
  | defineDerivedUnit name e mdata t =>
    obtain ⟨e', he⟩ := Expression.exprApply_ok s e
    simp [Statement.apply, he, Ty.apply_eq_applyT]
  | procedureCall kind args =>
    obtain ⟨args', ha⟩ := Expression.applyArgs_ok s args
    simp [Statement.apply, ha]
  | defineStruct info => simp [Statement.apply, StructInfo.structApply_eq_applyT]

/-- C9: in the code as written, `apply` always returns `Ok` on every
`Type`, `DType`, `StructInfo`, `Expression` and `Statement` — the
`SubstitutedNonDTypeWithinDType` branch is unreachable — so the `unwrap`
inside `Substitution::extend` can never panic (`extend` always returns a
composed substitution). -/
theorem c9_apply_never_errors :
    (∀ (s : Substitution) (t : Ty), ∃ t', Ty.apply s t = .ok t') ∧
    (∀ (s : Substitution) (d : DType), ∃ d', DType.apply s d = .ok d') ∧
    (∀ (s : Substitution) (i : StructInfo), ∃ i', StructInfo.apply s i = .ok i') ∧
    (∀ (s : Substitution) (e : Expression), ∃ e', Expression.apply s e = .ok e') ∧
    (∀ (s : Substitution) (st : Statement), ∃ st', Statement.apply s st = .ok st') ∧
    (∀ s1 s2 : Substitution, ∃ s12, Substitution.extend s1 s2 = some s12) :=
  ⟨fun s t => ⟨_, Ty.apply_eq_applyT s t⟩,
   fun _ d => ⟨d, rfl⟩,
   fun s i => ⟨_, StructInfo.structApply_eq_applyT s i⟩,
   fun s e => Expression.exprApply_ok s e,
   fun s st => Statement.stmtApply_ok s st,
   fun s1 s2 => ⟨_, Substitution.extend_eq_extendT s1 s2⟩⟩

